import Mathlib

/-!
Verification of the framed-protocol connection servers of this repository:
the file-sharing server (`Sharing-App/file_server.py`) and the multi-client
chat server (`MultiClient-Chat-App/chat_server.py`).

Bytes are modelled as `Nat` (values < 256 in well-formed data).  A TCP byte
stream is modelled as a list of non-empty chunks: a call to `recv k` yields
up to `k` bytes taken from the front of the first chunk (like a real socket,
it may return fewer bytes than requested even when more are pending); an
exhausted chunk list means the peer closed the stream, and `recv` then
returns the empty byte string, exactly as Python's `socket.recv` does.
Text-level operations of the Python sources (`str.startswith`, `str.split`,
`str.strip`, `int(...)`, `os.path.basename`) act on the UTF-8 encoded bytes;
for valid UTF-8 text, splitting on an ASCII delimiter byte coincides with
Python's splitting of the decoded string (UTF-8 continuation bytes are
always >= 0x80), so these operations are modelled directly on byte lists.
-/

abbrev Chunk := List Nat

abbrev ByteStream := List Chunk

/-- Total number of bytes still pending in the stream. -/
def streamLen (s : ByteStream) : Nat := (s.map List.length).sum

/-- All pending bytes of the stream, in order. -/
def streamBytes (s : ByteStream) : List Nat := s.flatten

/-- Well-formed stream: every chunk a socket yields is non-empty
(Python's `recv` returns `b""` only when the peer has closed). -/
def WFStream (s : ByteStream) : Prop := ∀ c ∈ s, c ≠ []

/-- Prepend pending bytes to a stream, keeping chunks non-empty. -/
def push (c : Chunk) (s : ByteStream) : ByteStream := if c.isEmpty then s else c :: s

/-- `recv k s`: one call to `socket.recv(k)`.  Returns up to `k` bytes from
the first pending chunk together with the rest of the stream; returns the
empty byte string when the stream is exhausted (peer closed). -/
def recv (k : Nat) (s : ByteStream) : List Nat × ByteStream :=
  match s with
  | [] => ([], [])
  | c :: rest =>
    let taken := c.take k
    let left := c.drop k
    (taken, if left.isEmpty then rest else left :: rest)

/-- `BUFFER_SIZE = 4096` in both servers. -/
def BUFFER_SIZE : Nat := 4096

/-! ### UTF-8 codec

Models Python's strict `bytes.decode("utf-8")` / `str.encode("utf-8")`:
the decoder rejects stray continuation bytes, overlong encodings,
surrogate code points and code points above U+10FFFF. -/

/-- UTF-8 encoding of one code point (Python `chr(c).encode("utf-8")`). -/
def utf8EncodeChar (c : Nat) : List Nat :=
  if c < 128 then [c]
  else if c < 2048 then [192 + c / 64, 128 + c % 64]
  else if c < 65536 then [224 + c / 4096, 128 + (c / 64) % 64, 128 + c % 64]
  else [240 + c / 262144, 128 + (c / 4096) % 64, 128 + (c / 64) % 64, 128 + c % 64]

/-- UTF-8 encoding of a sequence of code points (Python `str.encode`). -/
def utf8EncodeList (cps : List Nat) : List Nat := cps.flatMap utf8EncodeChar

/-- Is `b` a UTF-8 continuation byte (0x80..0xBF)? -/
def isCont (b : Nat) : Bool := 128 ≤ b && b < 192

/-- Decode one 2-byte UTF-8 sequence after lead byte `b` (0xC2..0xDF). -/
def utf8Two (b : Nat) : List Nat → Option (Nat × List Nat)
  | b1 :: bs1 => if isCont b1 then some ((b - 192) * 64 + (b1 - 128), bs1) else none
  | [] => none

/-- Decode one 3-byte UTF-8 sequence after lead byte `b` (0xE0..0xEF),
rejecting overlongs (`E0 80..9F`) and surrogates (`ED A0..BF`). -/
def utf8Three (b : Nat) : List Nat → Option (Nat × List Nat)
  | b1 :: b2 :: bs2 =>
    if isCont b1 && isCont b2 && !(b == 224 && b1 < 160) && !(b == 237 && 160 ≤ b1) then
      some ((b - 224) * 4096 + (b1 - 128) * 64 + (b2 - 128), bs2)
    else none
  | _ => none

/-- Decode one 4-byte UTF-8 sequence after lead byte `b` (0xF0..0xF4),
rejecting overlongs (`F0 80..8F`) and code points above U+10FFFF. -/
def utf8Four (b : Nat) : List Nat → Option (Nat × List Nat)
  | b1 :: b2 :: b3 :: bs3 =>
    if isCont b1 && isCont b2 && isCont b3 && !(b == 240 && b1 < 144) && !(b == 244 && 144 ≤ b1) then
      some ((b - 240) * 262144 + (b1 - 128) * 4096 + (b2 - 128) * 64 + (b3 - 128), bs3)
    else none
  | _ => none

/-- Decode the first scalar of a UTF-8 byte string: the code point and the
remaining bytes, or `none` for an empty or ill-formed string.  Lead bytes
0x80..0xC1 (stray continuations and 2-byte overlongs) and 0xF5..0xFF are
rejected outright, as Python's strict decoder does. -/
def utf8DecodeChar? (l : List Nat) : Option (Nat × List Nat) :=
  match l with
  | [] => none
  | b :: bs =>
    if b < 128 then some (b, bs)
    else if b < 194 then none
    else if b < 224 then utf8Two b bs
    else if b < 240 then utf8Three b bs
    else if b < 245 then utf8Four b bs
    else none

/-- Strict UTF-8 decoding driver; every decoded scalar consumes at least
one byte, so `l.length + 1` fuel suffices. -/
def utf8DecodeAux (fuel : Nat) (l : List Nat) : Option (List Nat) :=
  match fuel with
  | 0 => none
  | fuel + 1 =>
    match l with
    | [] => some []
    | _ :: _ =>
      match utf8DecodeChar? l with
      | none => none
      | some (c, rest) => (utf8DecodeAux fuel rest).map (fun cps => c :: cps)

/-- Strict UTF-8 decoding to code points; `none` models Python's
`UnicodeDecodeError` from `bytes.decode("utf-8")`. -/
def utf8Decode (l : List Nat) : Option (List Nat) := utf8DecodeAux (l.length + 1) l

/-- Does the byte list decode as UTF-8 (Python `decode` not raising)? -/
def utf8Valid (l : List Nat) : Bool := (utf8Decode l).isSome

/-- UTF-8 bytes of a Lean string literal (used for the protocol's ASCII
markers and the servers' message strings). -/
def strBytes (s : String) : List Nat := utf8EncodeList (s.data.map Char.toNat)

/-! ### Python text helpers on UTF-8 bytes -/

/-- ASCII whitespace, as stripped by `str.strip()` / `bytes.strip()`
(the headers handled by the servers are ASCII, where `str.strip` and
`bytes.strip` agree). -/
def isSpace (b : Nat) : Bool := b == 32 || (9 ≤ b && b ≤ 13)

/-- Python `strip()`: drop leading and trailing whitespace. -/
def pyStrip (l : List Nat) : List Nat :=
  ((l.dropWhile isSpace).reverse.dropWhile isSpace).reverse

/-- Split at the first occurrence of `sep`: `some (before, after)`,
or `none` when `sep` does not occur. -/
def splitFirst (sep : Nat) : List Nat → Option (List Nat × List Nat)
  | [] => none
  | b :: bs =>
    if b == sep then some ([], bs)
    else
      match splitFirst sep bs with
      | some (x, y) => some (b :: x, y)
      | none => none

/-- Python `split(sep, maxsplit)` on bytes, for a one-byte separator. -/
def splitMax (sep : Nat) : Nat → List Nat → List (List Nat)
  | 0, l => [l]
  | k + 1, l =>
    match splitFirst sep l with
    | none => [l]
    | some (a, b) => a :: splitMax sep k b

/-- Python `split(sep)` with no maxsplit, for a one-byte separator
(`"a\nb\n".split("\n") = ["a", "b", ""]`). -/
def splitAll (sep : Nat) : List Nat → List (List Nat)
  | [] => [[]]
  | b :: bs =>
    let r := splitAll sep bs
    if b == sep then [] :: r
    else
      match r with
      | x :: xs => (b :: x) :: xs
      | [] => [[b]]

/-- Digits of a decimal ASCII numeral, most significant first;
`none` when empty or containing a non-digit. -/
def digitsToNat (l : List Nat) (acc : Nat) : Option Nat :=
  match l with
  | [] => some acc
  | b :: bs => if 48 ≤ b && b ≤ 57 then digitsToNat bs (acc * 10 + (b - 48)) else none

/-- Python `int(str)` on the stripped text: optional sign followed by a
non-empty run of decimal digits; `none` models `ValueError`.  (Python also
accepts underscores between digits; no header in the protocols uses them.) -/
def pyParseInt (l : List Nat) : Option Int :=
  let t := pyStrip l
  match t with
  | 45 :: rest => if rest.isEmpty then none else (digitsToNat rest 0).map (fun n => -(n : Int))
  | 43 :: rest => if rest.isEmpty then none else (digitsToNat rest 0).map (fun n => (n : Int))
  | _ => if t.isEmpty then none else (digitsToNat t 0).map (fun n => (n : Int))

/-- Decimal ASCII rendering helper (big-endian accumulation). -/
def natDigitsAux (fuel : Nat) (n : Nat) (acc : List Nat) : List Nat :=
  match fuel with
  | 0 => acc
  | fuel + 1 => if n == 0 then acc else natDigitsAux fuel (n / 10) ((48 + n % 10) :: acc)

/-- Decimal ASCII rendering of a natural number (Python `str(n)` / f-string). -/
def natDigits (n : Nat) : List Nat :=
  if n == 0 then [48] else natDigitsAux (n + 1) n []

/-- `os.path.basename` on POSIX: everything after the last `/` (0x2F). -/
def basename (l : List Nat) : List Nat :=
  (l.reverse.takeWhile (fun b => b ≠ 47)).reverse

/-! ### Frame reader: `recv_all` (file server) and the shared receive loop

`recv_all` embeds `file_server.recv_all`:

    data = b""
    while len(data) < size:
        packet = sock.recv(min(BUFFER_SIZE, size - len(data)))
        if not packet:
            break
        data += packet
    return data

The size is an `Int` because Python's `int(size_str)` may be negative, in
which case the loop guard `len(data) < size` is immediately false.  The
recursion is driven by fuel: every non-final iteration consumes at least
one byte from a well-formed stream, so `streamLen s + 1` steps suffice. -/

def recvAll (fuel : Nat) (s : ByteStream) (size : Int) (acc : List Nat) :
    List Nat × ByteStream :=
  match fuel with
  | 0 => (acc, s)
  | fuel + 1 =>
    if (acc.length : Int) < size then
      let r := recv (min (BUFFER_SIZE : Int) (size - acc.length)).toNat s
      if r.1.isEmpty then (acc, r.2)
      else recvAll fuel r.2 size (acc ++ r.1)
    else (acc, s)

/-- `file_server.recv_all(sock, size)`: receive exactly `size` bytes,
or fewer if the stream closes early.  Also returns the rest of the stream. -/
def recv_all (s : ByteStream) (size : Int) : List Nat × ByteStream :=
  recvAll (streamLen s + 1) s size []

/-- The file server's header loop, reading one byte at a time:

    while b"\n" not in header:
        chunk = conn.recv(1)
        if not chunk:
            return
        header += chunk

`none` models the `return` on a closed stream. -/
def readHeader (fuel : Nat) (acc : List Nat) (s : ByteStream) :
    Option (List Nat × ByteStream) :=
  match fuel with
  | 0 => none
  | fuel + 1 =>
    if 10 ∈ acc then some (acc, s)
    else
      let r := recv 1 s
      if r.1.isEmpty then none
      else readHeader fuel (acc ++ r.1) r.2

/-- Read one `\n`-terminated header (newline included) from the stream. -/
def readLine (s : ByteStream) : Option (List Nat × ByteStream) :=
  readHeader (streamLen s + 1) [] s

/-! ### Storage gateway

The shared directory is an association list from file name (bytes of the
UTF-8 name) to content.  Writing with `open(path, "wb")` overwrites. -/

abbrev Storage := List (List Nat × List Nat)

/-- Save (create or overwrite) an object under `name`. -/
def Storage.save : Storage → List Nat → List Nat → Storage
  | [], name, content => [(name, content)]
  | (n, c) :: rest, name, content =>
    if n = name then (n, content) :: rest else (n, c) :: Storage.save rest name content

/-- Look up the content stored under `name` (`os.path.isfile` + read). -/
def Storage.lookup? (st : Storage) (name : List Nat) : Option (List Nat) :=
  (st.find? (fun p => p.1 = name)).map (fun p => p.2)

/-- `os.listdir`: the stored names, in the directory's enumeration order. -/
def Storage.names (st : Storage) : List (List Nat) := st.map (fun p => p.1)

/-! ### File sharing server (`Sharing-App/file_server.py`) -/

/-- Result of one iteration of `file_server.handle_client`'s loop:
the storage afterwards, the bytes sent to this connection (all `sendall`
calls concatenated), and `some rest` when the loop continues with stream
`rest`, `none` when the session ends (EOF or an uncaught exception). -/
structure FsRes where
  storage : Storage
  sent : List Nat
  cont : Option ByteStream
deriving DecidableEq

/-- The `UPLOAD|` marker (`header_line.startswith("UPLOAD|")`). -/
def uploadMarker : List Nat := strBytes "UPLOAD|"

/-- The `DOWNLOAD|` marker. -/
def downloadMarker : List Nat := strBytes "DOWNLOAD|"

/-- `ERROR|Unknown command\n`. -/
def errUnknown : List Nat := strBytes "ERROR|Unknown command\n"

/-- The `UPLOAD` branch of `file_server.handle_client`, after a valid
header parse: `recv_all` the body, save under the basename, reply `OK`. -/
def fsUpload (st : Storage) (filename : List Nat) (size : Int) (s1 : ByteStream) : FsRes :=
  let r := recv_all s1 size
  let safe := basename filename
  { storage := Storage.save st safe r.1
    sent := strBytes "OK|" ++ safe ++ [10]
    cont := some r.2 }

/-- The `DOWNLOAD` branch: `NOTFOUND`, or `FOUND|<size>` then the bytes. -/
def fsDownload (st : Storage) (filename : List Nat) (s1 : ByteStream) : FsRes :=
  let safe := basename filename
  match Storage.lookup? st safe with
  | none => { storage := st, sent := strBytes "NOTFOUND\n", cont := some s1 }
  | some content =>
    { storage := st
      sent := strBytes "FOUND|" ++ natDigits content.length ++ [10] ++ content
      cont := some s1 }

/-- Python `sep.join(parts)`. -/
def pyJoin (sep : List Nat) : List (List Nat) → List Nat
  | [] => []
  | [x] => x
  | x :: y :: rest => x ++ sep ++ pyJoin sep (y :: rest)

/-- The `LIST` branch: `"\n".join(files) + "\nDONE\n"`. -/
def fsList (st : Storage) (s1 : ByteStream) : FsRes :=
  { storage := st
    sent := pyJoin [10] (Storage.names st) ++ strBytes "\nDONE\n"
    cont := some s1 }

/-- Dispatch on the stripped header line (`file_server.handle_client`).
A `ValueError` from tuple unpacking or from `int(size_str)` is caught only
by the handler's outer `except Exception`, which ends the session, so those
branches send nothing and close. -/
def fsHandleLine (st : Storage) (line : List Nat) (s1 : ByteStream) : FsRes :=
  if uploadMarker.isPrefixOf line then
    match splitMax 124 2 line with
    | [_, filename, sizeStr] =>
      match pyParseInt sizeStr with
      | some size => fsUpload st filename size s1
      | none => { storage := st, sent := [], cont := none }
    | _ => { storage := st, sent := [], cont := none }
  else if downloadMarker.isPrefixOf line then
    match splitMax 124 1 line with
    | [_, filename] => fsDownload st filename s1
    | _ => { storage := st, sent := [], cont := none }
  else if line = strBytes "LIST" then fsList st s1
  else { storage := st, sent := errUnknown, cont := some s1 }

/-- One iteration of `file_server.handle_client`: read a header line byte
by byte, decode and strip it, dispatch.  EOF inside the header returns;
a `UnicodeDecodeError` propagates to the outer `except` and closes. -/
def fsStep (st : Storage) (s : ByteStream) : FsRes :=
  match readLine s with
  | none => { storage := st, sent := [], cont := none }
  | some (header, s1) =>
    if utf8Valid header then fsHandleLine st (pyStrip header) s1
    else { storage := st, sent := [], cont := none }

/-! ### Multi-client chat server (`MultiClient-Chat-App/chat_server.py`) -/

/-- The global `clients` / `nicknames` parallel lists, guarded by `lock`.
Transport handles are identified by `Nat` identifiers; Python's `is`
comparison of distinct sockets is identifier equality. -/
structure Registry where
  clients : List Nat
  nicknames : List String
deriving DecidableEq

/-- Decimal rendering of a Python `int` (for the f-string `{size}`). -/
def intBytes (i : Int) : List Nat :=
  if i < 0 then 45 :: natDigits (-i).toNat else natDigits i.toNat

/-- `chat_server.broadcast`, with the per-client `send` made explicit as a
function that either succeeds or raises.  The `try`/`except` around each
send catches the failure and moves on.  Returns the attempted deliveries in
order, each flagged with the send's success; an uncaught exception would
surface as `.error`, so "broadcast never raises" is `= .ok _`. -/
def broadcastE (clients : List Nat) (exclude : Option Nat)
    (send : Nat → Except Unit Unit) : Except Unit (List (Nat × Bool)) :=
  match clients with
  | [] => .ok []
  | c :: rest =>
    if some c = exclude then broadcastE rest exclude send
    else
      match send c with
      | .ok _ =>
        match broadcastE rest exclude send with
        | .ok t => .ok ((c, true) :: t)
        | .error e => .error e
      | .error _ =>
        match broadcastE rest exclude send with
        | .ok t => .ok ((c, false) :: t)
        | .error e => .error e

/-- The "left the chat" notice of `chat_server.remove_client`. -/
def leftMsg (nickname : String) : String := "⚠️ " ++ nickname ++ " left the chat.\n"

/-- `chat_server.remove_client`: if the socket is registered, look up its
nickname (`nicknames[idx]` raises `IndexError` out of the function if the
parallel lists are out of step — modelled as `.error`), remove both entries
(the inner `try`/`except` only guards `close()` once `get?` succeeded), and
broadcast the leave notice; otherwise do nothing.  Returns the new registry
and the list of broadcast payloads. -/
def remove_client (reg : Registry) (me : Nat) : Except Unit (Registry × List String) :=
  if me ∈ reg.clients then
    let idx := reg.clients.indexOf me
    match reg.nicknames.get? idx with
    | none => .error ()
    | some nickname =>
      .ok ({ clients := reg.clients.erase me, nicknames := reg.nicknames.eraseIdx idx },
           [leftMsg nickname])
  else .ok (reg, [])

/-- `chat_server.receive_file_with_initial`: write `initial_bytes` (all of
them, even beyond `size`), then run the receive loop with
`remaining = size - len(initial_bytes)`.  That loop —

    while remaining > 0:
        chunk = client_socket.recv(min(BUFFER_SIZE, remaining))
        if not chunk:
            break
        f.write(chunk)
        remaining -= len(chunk)

— is the `recv_all` loop with the target offset by the initial length.
Returns the storage with the file saved under the basename, and the rest
of the stream. -/
def receive_file_with_initial (st : Storage) (filename : List Nat) (size : Int)
    (initial : List Nat) (s : ByteStream) : Storage × ByteStream :=
  let safe := basename filename
  let r := recv_all s (size - initial.length)
  (Storage.save st safe (initial ++ r.1), r.2)

/-- `chat_server.handle_client`'s header split of a `FILE|` chunk:

    try:
        header, rest = data.split(b"\n", 1)
    except ValueError:
        header = data.strip()
        rest = b""
-/
def chatHeaderRest (data : List Nat) : List Nat × List Nat :=
  match splitFirst 10 data with
  | some (a, b) => (a, b)
  | none => (pyStrip data, [])

/-- The `FILE|` marker checked on the raw chunk. -/
def fileMarker : List Nat := strBytes "FILE|"

/-- `ERROR|Invalid file header\n`. -/
def errHeader : List Nat := strBytes "ERROR|Invalid file header\n"

/-- `ERROR|Invalid file size\n`. -/
def errSize : List Nat := strBytes "ERROR|Invalid file size\n"

/-- The placeholder broadcast for a chunk that is not valid UTF-8. -/
def invalidUtf8Msg : List Nat := strBytes "<Invalid UTF-8 data>"

/-- Sender lookup after an upload:

    try:
        idx = clients.index(client_socket)
        sender = nicknames[idx]
    except ValueError:
        sender = "Unknown"

`clients.index` raising `ValueError` is caught; `nicknames[idx]` raising
`IndexError` is not (modelled as `none`). -/
def senderName (reg : Registry) (me : Nat) : Option String :=
  match reg.clients.findIdx? (fun c => c == me) with
  | none => some "Unknown"
  | some idx => reg.nicknames.get? idx

/-- The upload notice `f"🔔 {sender} uploaded file: {basename} ({size} bytes)\n"`. -/
def uploadNotice (sender : String) (safe : List Nat) (size : Int) : List Nat :=
  strBytes "🔔 " ++ strBytes sender ++ strBytes " uploaded file: " ++ safe
    ++ strBytes " (" ++ intBytes size ++ strBytes " bytes)\n"

/-- Result of one iteration of `chat_server.handle_client`'s loop. -/
structure ChatRes where
  storage : Storage
  sentToClient : List (List Nat)
  broadcasts : List (List Nat)
  cont : Option ByteStream
deriving DecidableEq

/-- `chat_server.handle_client`'s handling of one non-empty received chunk
`data` (lines 68-105): either a `FILE|` upload frame, or a chat message to
broadcast.  `s1` is the stream after the read that produced `data`.
Uncaught exceptions (`UnicodeDecodeError` on the header, `IndexError` on
the nickname lookup) end the session: `cont := none`. -/
def chatHandleData (reg : Registry) (me : Nat) (st : Storage)
    (data : List Nat) (s1 : ByteStream) : ChatRes :=
  if fileMarker.isPrefixOf data then
    let hr := chatHeaderRest data
    if utf8Valid hr.1 then
      match splitMax 124 2 hr.1 with
      | [_, filename, sizeStr] =>
        match pyParseInt sizeStr with
        | none => { storage := st, sentToClient := [errSize], broadcasts := [], cont := some s1 }
        | some size =>
          let rr := receive_file_with_initial st filename size hr.2 s1
          match senderName reg me with
          | none => { storage := rr.1, sentToClient := [], broadcasts := [], cont := none }
          | some sender =>
            { storage := rr.1
              sentToClient := []
              broadcasts := [uploadNotice sender (basename filename) size]
              cont := some rr.2 }
      | _ => { storage := st, sentToClient := [errHeader], broadcasts := [], cont := some s1 }
    else { storage := st, sentToClient := [], broadcasts := [], cont := none }
  else
    let payload :=
      match utf8Decode data with
      | some cps => utf8EncodeList cps
      | none => invalidUtf8Msg
    { storage := st, sentToClient := [], broadcasts := [payload], cont := some s1 }

/-- One iteration of `chat_server.handle_client`'s loop: one
`recv(BUFFER_SIZE)`; an empty read breaks out of the loop. -/
def chatStep (reg : Registry) (me : Nat) (st : Storage) (s : ByteStream) : ChatRes :=
  let r := recv BUFFER_SIZE s
  if r.1.isEmpty then { storage := st, sentToClient := [], broadcasts := [], cont := none }
  else chatHandleData reg me st r.1 r.2

/-! ### Stream lemmas -/

theorem streamBytes_nil : streamBytes [] = [] := rfl

theorem streamBytes_cons (c : Chunk) (s : ByteStream) :
    streamBytes (c :: s) = c ++ streamBytes s := rfl

theorem streamLen_cons (c : Chunk) (s : ByteStream) :
    streamLen (c :: s) = c.length + streamLen s := rfl

theorem streamLen_eq_length (s : ByteStream) : streamLen s = (streamBytes s).length := by
  induction s with
  | nil => rfl
  | cons c s ih => simp [streamLen_cons, streamBytes_cons, ih]

theorem WFStream_nil : WFStream [] := by intro c hc; cases hc

theorem WFStream_cons {c : Chunk} {s : ByteStream} (hc : c ≠ []) (hs : WFStream s) :
    WFStream (c :: s) := by
  intro d hd
  rw [List.mem_cons] at hd
  rcases hd with rfl | hd
  · exact hc
  · exact hs _ hd

theorem WFStream_of_cons {c : Chunk} {s : ByteStream} (h : WFStream (c :: s)) :
    c ≠ [] ∧ WFStream s :=
  ⟨h c (List.mem_cons_self c s), fun d hd => h d (List.mem_cons_of_mem c hd)⟩

theorem WFStream_push (c : Chunk) {s : ByteStream} (hs : WFStream s) :
    WFStream (push c s) := by
  unfold push
  split
  · exact hs
  · next h => exact WFStream_cons (by simpa [List.isEmpty_iff] using h) hs

theorem streamBytes_push (c : Chunk) (s : ByteStream) :
    streamBytes (push c s) = c ++ streamBytes s := by
  unfold push
  split
  · next h => simp [List.isEmpty_iff.mp h]
  · exact streamBytes_cons c s

/-! ### `recv` lemmas -/

theorem recv_spec (k : Nat) (s : ByteStream) (hwf : WFStream s) :
    (recv k s).1 ++ streamBytes (recv k s).2 = streamBytes s ∧
    WFStream (recv k s).2 ∧ (recv k s).1.length ≤ k := by
  cases s with
  | nil => simp [recv, streamBytes_nil, WFStream_nil]
  | cons c rest =>
    obtain ⟨hc, hrest⟩ := WFStream_of_cons hwf
    refine ⟨?_, ?_, ?_⟩
    · simp only [recv, streamBytes_cons]
      split
      · next h =>
        have hdrop : c.drop k = [] := List.isEmpty_iff.mp h
        have htake : c.take k = c := by
          conv_rhs => rw [← List.take_append_drop k c]
          rw [hdrop, List.append_nil]
        rw [htake]
      · next h =>
        simp [streamBytes_cons, ← List.append_assoc, List.take_append_drop]
    · simp only [recv]
      split
      · exact hrest
      · next h => exact WFStream_cons (by simpa [List.isEmpty_iff] using h) hrest
    · simp only [recv]
      exact List.length_take_le k c

theorem recv_fst_ne_nil {k : Nat} {s : ByteStream} (hwf : WFStream s) (hs : s ≠ [])
    (hk : 0 < k) : (recv k s).1 ≠ [] := by
  cases s with
  | nil => exact absurd rfl hs
  | cons c rest =>
    obtain ⟨hc, _⟩ := WFStream_of_cons hwf
    simp only [recv]
    intro htake
    rcases List.take_eq_nil_iff.mp htake with h | h
    · omega
    · exact hc h

theorem recv_empty_cases {k : Nat} {s : ByteStream} (hwf : WFStream s) (hk : 0 < k)
    (h : (recv k s).1 = []) : s = [] ∧ (recv k s).2 = [] := by
  cases s with
  | nil => exact ⟨rfl, rfl⟩
  | cons c rest => exact absurd h (recv_fst_ne_nil hwf (by simp) hk)

/-! ### `recv_all` characterization

With a well-formed stream, the accumulation loop collects exactly the next
`(size - acc.length).toNat` pending bytes (or everything, when the stream
closes first), leaving the rest of the stream pending. -/

theorem recvAll_spec (fuel : Nat) :
    ∀ (s : ByteStream) (size : Int) (acc : List Nat), WFStream s →
      streamLen s + 1 ≤ fuel →
      (recvAll fuel s size acc).1 =
          acc ++ (streamBytes s).take (size - acc.length).toNat ∧
      streamBytes (recvAll fuel s size acc).2 =
          (streamBytes s).drop (size - acc.length).toNat ∧
      WFStream (recvAll fuel s size acc).2 := by
  induction fuel with
  | zero => intro s size acc _ hfuel; omega
  | succ fuel ih =>
    intro s size acc hwf hfuel
    by_cases hlt : (acc.length : Int) < size
    · set req := (min (BUFFER_SIZE : Int) (size - (acc.length : Int))).toNat with hreq
      have hreqpos : 0 < req := by
        rw [hreq]
        have hb : (0 : Int) < (BUFFER_SIZE : Nat) := by norm_num [BUFFER_SIZE]
        omega
      obtain ⟨hsplit, hwf2, hlen⟩ := recv_spec req s hwf
      by_cases hempty : (recv req s).1 = []
      · obtain ⟨hsnil, hs2nil⟩ := recv_empty_cases hwf hreqpos hempty
        subst hsnil
        simp only [recvAll, hlt, if_true]
        rw [← hreq]
        simp [hempty, hs2nil, streamBytes_nil, WFStream_nil]
      · have hne : (recv req s).1.isEmpty = false := by
          cases hh : (recv req s).1 with
          | nil => exact absurd hh hempty
          | cons a l => rfl
        have hlen2 : (recv req s).1.length + streamLen (recv req s).2 = streamLen s := by
          have := congrArg List.length hsplit
          simp only [List.length_append] at this
          rw [streamLen_eq_length, streamLen_eq_length]
          omega
        have hlenpos : 0 < (recv req s).1.length := by
          cases hh : (recv req s).1 with
          | nil => exact absurd hh hempty
          | cons a l => simp [hh]
        have hfuel2 : streamLen (recv req s).2 + 1 ≤ fuel := by omega
        obtain ⟨ih1, ih2, ih3⟩ :=
          ih (recv req s).2 size (acc ++ (recv req s).1) hwf2 hfuel2
        have hreqle : req ≤ (size - (acc.length : Int)).toNat := by
          rw [hreq]
          omega
        have htakele : (recv req s).1.length ≤ (size - (acc.length : Int)).toNat := by
          omega
        have hneed2 : (size - ((acc ++ (recv req s).1).length : Int)).toNat =
            (size - (acc.length : Int)).toNat - (recv req s).1.length := by
          simp only [List.length_append]
          omega
        refine ⟨?_, ?_, ?_⟩
        · simp only [recvAll, hlt, if_true, hne, Bool.false_eq_true, if_false]
          rw [← hreq, ih1, hneed2, ← hsplit]
          rw [List.take_append_eq_append_take,
              List.take_of_length_le htakele, List.append_assoc]
        · simp only [recvAll, hlt, if_true, hne, Bool.false_eq_true, if_false]
          rw [← hreq, ih2, hneed2, ← hsplit]
          rw [List.drop_append_eq_append_drop,
              List.drop_eq_nil_of_le htakele, List.nil_append]
        · simp only [recvAll, hlt, if_true, hne, Bool.false_eq_true, if_false]
          rw [← hreq]
          exact ih3
    · have hz : (size - (acc.length : Int)).toNat = 0 := by omega
      refine ⟨?_, ?_, ?_⟩ <;> simp [recvAll, hlt, hz, hwf]

theorem recv_all_spec (s : ByteStream) (size : Int) (hwf : WFStream s) :
    (recv_all s size).1 = (streamBytes s).take size.toNat ∧
    streamBytes (recv_all s size).2 = (streamBytes s).drop size.toNat ∧
    WFStream (recv_all s size).2 := by
  have h := recvAll_spec (streamLen s + 1) s size [] hwf (le_refl _)
  simpa [recv_all] using h

/-! ### `readLine` characterization -/

theorem readHeader_push (h : List Nat) :
    ∀ (acc : List Nat) (fuel : Nat) (t : List Nat) (s : ByteStream), WFStream s →
      (10 : Nat) ∉ h → (10 : Nat) ∉ acc → h.length + 2 ≤ fuel →
      readHeader fuel acc (push (h ++ 10 :: t) s) = some (acc ++ h ++ [10], push t s) := by
  induction h with
  | nil =>
    intro acc fuel t s hwf _ hacc hfuel
    obtain ⟨f, rfl⟩ : ∃ f, fuel = f + 2 := ⟨fuel - 2, by omega⟩
    simp [readHeader, push, recv, hacc]
  | cons b h ihh =>
    intro acc fuel t s hwf hh hacc hfuel
    have hb : b ≠ 10 := by
      intro hb10
      exact hh (by simp [hb10])
    have hh' : (10 : Nat) ∉ h := fun hx => hh (List.mem_cons_of_mem b hx)
    obtain ⟨f, rfl⟩ : ∃ f, fuel = f + 1 := ⟨fuel - 1, by omega⟩
    have hpush : push ((b :: h) ++ 10 :: t) s = (b :: (h ++ 10 :: t)) :: s := by
      simp [push]
    rw [hpush]
    have htail : (h ++ 10 :: t).isEmpty = false := by
      cases hcase : h ++ 10 :: t with
      | nil => exact absurd hcase (by simp)
      | cons x l => rfl
    have hrecv : recv 1 ((b :: (h ++ 10 :: t)) :: s) = ([b], push (h ++ 10 :: t) s) := by
      simp [recv, push, htail]
    simp only [readHeader, hacc, if_false]
    rw [hrecv]
    simp only [List.isEmpty_cons, Bool.false_eq_true, if_false]
    have hacc2 : (10 : Nat) ∉ acc ++ [b] := by
      intro hx
      rcases List.mem_append.mp hx with hx | hx
      · exact hacc hx
      · simp at hx
        exact hb hx.symm
    rw [ihh (acc ++ [b]) f t s hwf hh' hacc2 (by simpa using hfuel)]
    simp

theorem readLine_push (h t : List Nat) (s : ByteStream) (hwf : WFStream s)
    (hh : (10 : Nat) ∉ h) :
    readLine (push (h ++ 10 :: t) s) = some (h ++ [10], push t s) := by
  have hfuel : h.length + 2 ≤ streamLen (push (h ++ 10 :: t) s) + 1 := by
    unfold push
    split
    · next hc => simp at hc
    · simp only [streamLen_cons, List.length_append, List.length_cons]
      omega
  have := readHeader_push h [] (streamLen (push (h ++ 10 :: t) s) + 1) t s hwf hh
    (by simp) hfuel
  simpa [readLine] using this

/-! ### Storage lemmas -/

theorem Storage.lookup_save_self (st : Storage) (name content : List Nat) :
    Storage.lookup? (Storage.save st name content) name = some content := by
  induction st with
  | nil => simp [Storage.save, Storage.lookup?, List.find?]
  | cons p rest ih =>
    by_cases heq : p.1 = name
    · simp [Storage.save, heq, Storage.lookup?, List.find?]
    · simp only [Storage.save, heq, if_false]
      simpa [Storage.lookup?, List.find?, heq] using ih

theorem Storage.names_save (st : Storage) (name content : List Nat) :
    Storage.names (Storage.save st name content) =
      if name ∈ Storage.names st then Storage.names st else Storage.names st ++ [name] := by
  induction st with
  | nil => simp [Storage.save, Storage.names]
  | cons p rest ih =>
    obtain ⟨n, c⟩ := p
    by_cases heq : n = name
    · have hmem : name ∈ Storage.names ((n, c) :: rest) := by
        simp [Storage.names, heq]
      rw [if_pos hmem]
      simp [Storage.save, heq, Storage.names]
    · have hsave : Storage.save ((n, c) :: rest) name content =
          (n, c) :: Storage.save rest name content := by
        simp [Storage.save, heq]
      rw [hsave]
      have hn1 : Storage.names ((n, c) :: Storage.save rest name content) =
          n :: Storage.names (Storage.save rest name content) := rfl
      have hn2 : Storage.names ((n, c) :: rest) = n :: Storage.names rest := rfl
      rw [hn1, ih, hn2]
      by_cases hmem : name ∈ Storage.names rest
      · rw [if_pos hmem, if_pos (List.mem_cons_of_mem _ hmem)]
      · rw [if_neg hmem, if_neg ?_]
        · simp
        · intro hx
          rcases List.mem_cons.mp hx with h1 | h2
          · exact heq h1.symm
          · exact hmem h2

/-! ### `basename` and split lemmas -/

theorem basename_no_slash (l : List Nat) : (47 : Nat) ∉ basename l := by
  intro hmem
  unfold basename at hmem
  rw [List.mem_reverse] at hmem
  have := List.mem_takeWhile_imp hmem
  simp at this

theorem splitAll_no_sep {sep : Nat} {a : List Nat} (h : sep ∉ a) :
    splitAll sep a = [a] := by
  induction a with
  | nil => rfl
  | cons b bs ih =>
    have hb : (b == sep) = false := by
      simp only [beq_eq_false_iff_ne]
      intro hb
      exact h (by simp [hb])
    have hbs : sep ∉ bs := fun hx => h (List.mem_cons_of_mem b hx)
    simp [splitAll, hb, ih hbs]

theorem splitAll_sep_append {sep : Nat} {a : List Nat} (rest : List Nat) (h : sep ∉ a) :
    splitAll sep (a ++ sep :: rest) = a :: splitAll sep rest := by
  induction a with
  | nil => simp [splitAll]
  | cons b bs ih =>
    have hb : (b == sep) = false := by
      simp only [beq_eq_false_iff_ne]
      intro hb
      exact h (by simp [hb])
    have hbs : sep ∉ bs := fun hx => h (List.mem_cons_of_mem b hx)
    rw [List.cons_append]
    simp only [splitAll, hb, Bool.false_eq_true, if_false]
    rw [ih hbs]

theorem splitAll_pyJoin {sep : Nat} :
    ∀ (names : List (List Nat)) (tail : List Nat), names ≠ [] →
      (∀ n ∈ names, sep ∉ n) →
      splitAll sep (pyJoin [sep] names ++ sep :: tail) = names ++ splitAll sep tail := by
  intro names
  induction names with
  | nil => intro tail h _; exact absurd rfl h
  | cons x rest ih =>
    intro tail _ hfree
    have hx : sep ∉ x := hfree x (List.mem_cons_self x rest)
    cases rest with
    | nil => simpa [pyJoin] using splitAll_sep_append tail hx
    | cons y tl =>
      have hrest : ∀ n ∈ y :: tl, sep ∉ n := fun n hn =>
        hfree n (List.mem_cons_of_mem x hn)
      have := ih (tail) (by simp) hrest
      calc splitAll sep (pyJoin [sep] (x :: y :: tl) ++ sep :: tail)
          = splitAll sep (x ++ sep :: (pyJoin [sep] (y :: tl) ++ sep :: tail)) := by
            simp [pyJoin]
        _ = x :: splitAll sep (pyJoin [sep] (y :: tl) ++ sep :: tail) :=
            splitAll_sep_append _ hx
        _ = x :: ((y :: tl) ++ splitAll sep tail) := by rw [this]
        _ = (x :: y :: tl) ++ splitAll sep tail := rfl


/-! ### UTF-8 round trip: re-encoding a decoded byte string is the identity
(this is what makes `broadcast` deliver a valid chat chunk verbatim:
`data.decode("utf-8")` is re-encoded by `message.encode("utf-8")`). -/

theorem utf8EncodeChar_ne_nil (c : Nat) : utf8EncodeChar c ≠ [] := by
  unfold utf8EncodeChar
  split_ifs <;> simp

theorem utf8Two_encode {b c : Nat} {bs rest : List Nat}
    (hb1 : 194 ≤ b) (hb2 : b < 224)
    (h : utf8Two b bs = some (c, rest)) : utf8EncodeChar c ++ rest = b :: bs := by
  cases bs with
  | nil => simp [utf8Two] at h
  | cons b1 bs1 =>
    simp only [utf8Two] at h
    by_cases hcont : isCont b1
    · rw [if_pos hcont] at h
      obtain ⟨hc, hrest⟩ : (b - 192) * 64 + (b1 - 128) = c ∧ bs1 = rest := by
        simpa using h
      subst hc
      subst hrest
      obtain ⟨hc1, hc2⟩ : 128 ≤ b1 ∧ b1 < 192 := by simpa [isCont] using hcont
      have hge : ¬ (b - 192) * 64 + (b1 - 128) < 128 := by omega
      have hlt : (b - 192) * 64 + (b1 - 128) < 2048 := by omega
      simp only [utf8EncodeChar, hge, hlt, if_false, if_true]
      have e1 : 192 + ((b - 192) * 64 + (b1 - 128)) / 64 = b := by omega
      have e2 : 128 + ((b - 192) * 64 + (b1 - 128)) % 64 = b1 := by omega
      rw [e1, e2]
      rfl
    · rw [if_neg hcont] at h
      exact absurd h (by simp)

theorem utf8Three_encode {b c : Nat} {bs rest : List Nat}
    (hb1 : 224 ≤ b) (hb2 : b < 240)
    (h : utf8Three b bs = some (c, rest)) : utf8EncodeChar c ++ rest = b :: bs := by
  rcases bs with _ | ⟨b1, _ | ⟨b2, bs2⟩⟩
  · simp [utf8Three] at h
  · simp [utf8Three] at h
  · simp only [utf8Three] at h
    by_cases hcond : (isCont b1 && isCont b2 && !(b == 224 && decide (b1 < 160))
        && !(b == 237 && decide (160 ≤ b1))) = true
    · rw [if_pos hcond] at h
      obtain ⟨hc, hrest⟩ : (b - 224) * 4096 + (b1 - 128) * 64 + (b2 - 128) = c
          ∧ bs2 = rest := by simpa using h
      subst hc
      subst hrest
      have hsplit : (128 ≤ b1 ∧ b1 < 192) ∧ (128 ≤ b2 ∧ b2 < 192) ∧
          (b = 224 → 160 ≤ b1) := by
        simp only [Bool.and_eq_true, Bool.not_eq_true', Bool.and_eq_false_iff,
          beq_eq_false_iff_ne, beq_iff_eq, decide_eq_true_eq, decide_eq_false_iff_not,
          isCont] at hcond
        obtain ⟨⟨⟨h1, h2⟩, h3⟩, _⟩ := hcond
        refine ⟨by simpa using h1, by simpa using h2, ?_⟩
        intro hb224
        rcases h3 with h | h
        · exact absurd hb224 h
        · omega
      obtain ⟨⟨hc1, hc2⟩, ⟨hc3, hc4⟩, hc5⟩ := hsplit
      have hge : ¬ (b - 224) * 4096 + (b1 - 128) * 64 + (b2 - 128) < 2048 := by
        by_cases hb224 : b = 224
        · have := hc5 hb224
          omega
        · omega
      have hge' : ¬ (b - 224) * 4096 + (b1 - 128) * 64 + (b2 - 128) < 128 := by omega
      have hlt : (b - 224) * 4096 + (b1 - 128) * 64 + (b2 - 128) < 65536 := by omega
      simp only [utf8EncodeChar, hge, hge', hlt, if_false, if_true]
      have e1 : 224 + ((b - 224) * 4096 + (b1 - 128) * 64 + (b2 - 128)) / 4096 = b := by
        omega
      have e2 : 128 + ((b - 224) * 4096 + (b1 - 128) * 64 + (b2 - 128)) / 64 % 64 = b1 := by
        omega
      have e3 : 128 + ((b - 224) * 4096 + (b1 - 128) * 64 + (b2 - 128)) % 64 = b2 := by
        omega
      rw [e1, e2, e3]
      rfl
    · rw [if_neg hcond] at h
      exact absurd h (by simp)

theorem utf8Four_encode {b c : Nat} {bs rest : List Nat}
    (hb1 : 240 ≤ b) (hb2 : b < 245)
    (h : utf8Four b bs = some (c, rest)) : utf8EncodeChar c ++ rest = b :: bs := by
  rcases bs with _ | ⟨b1, _ | ⟨b2, _ | ⟨b3, bs3⟩⟩⟩
  · simp [utf8Four] at h
  · simp [utf8Four] at h
  · simp [utf8Four] at h
  · simp only [utf8Four] at h
    by_cases hcond : (isCont b1 && isCont b2 && isCont b3 && !(b == 240 && decide (b1 < 144))
        && !(b == 244 && decide (144 ≤ b1))) = true
    · rw [if_pos hcond] at h
      obtain ⟨hc, hrest⟩ :
          (b - 240) * 262144 + (b1 - 128) * 4096 + (b2 - 128) * 64 + (b3 - 128) = c
          ∧ bs3 = rest := by simpa using h
      subst hc
      subst hrest
      have hsplit : (128 ≤ b1 ∧ b1 < 192) ∧ (128 ≤ b2 ∧ b2 < 192) ∧
          (128 ≤ b3 ∧ b3 < 192) ∧ (b = 240 → 144 ≤ b1) := by
        simp only [Bool.and_eq_true, Bool.not_eq_true', Bool.and_eq_false_iff,
          beq_eq_false_iff_ne, beq_iff_eq, decide_eq_true_eq, decide_eq_false_iff_not,
          isCont] at hcond
        obtain ⟨⟨⟨⟨h1, h2⟩, h3⟩, h4⟩, _⟩ := hcond
        refine ⟨by simpa using h1, by simpa using h2, by simpa using h3, ?_⟩
        intro hb240
        rcases h4 with h | h
        · exact absurd hb240 h
        · omega
      obtain ⟨⟨hc1, hc2⟩, ⟨hc3, hc4⟩, ⟨hc5, hc6⟩, hc7⟩ := hsplit
      have hge : ¬ (b - 240) * 262144 + (b1 - 128) * 4096 + (b2 - 128) * 64 + (b3 - 128)
          < 65536 := by
        by_cases hb240 : b = 240
        · have := hc7 hb240
          omega
        · omega
      have hge' : ¬ (b - 240) * 262144 + (b1 - 128) * 4096 + (b2 - 128) * 64 + (b3 - 128)
          < 2048 := by omega
      have hge'' : ¬ (b - 240) * 262144 + (b1 - 128) * 4096 + (b2 - 128) * 64 + (b3 - 128)
          < 128 := by omega
      simp only [utf8EncodeChar, hge, hge', hge'', if_false, if_true]
      have e1 : 240 + ((b - 240) * 262144 + (b1 - 128) * 4096 + (b2 - 128) * 64
          + (b3 - 128)) / 262144 = b := by omega
      have e2 : 128 + ((b - 240) * 262144 + (b1 - 128) * 4096 + (b2 - 128) * 64
          + (b3 - 128)) / 4096 % 64 = b1 := by omega
      have e3 : 128 + ((b - 240) * 262144 + (b1 - 128) * 4096 + (b2 - 128) * 64
          + (b3 - 128)) / 64 % 64 = b2 := by omega
      have e4 : 128 + ((b - 240) * 262144 + (b1 - 128) * 4096 + (b2 - 128) * 64
          + (b3 - 128)) % 64 = b3 := by omega
      rw [e1, e2, e3, e4]
      rfl
    · rw [if_neg hcond] at h
      exact absurd h (by simp)

theorem utf8DecodeChar?_encode {l : List Nat} {c : Nat} {rest : List Nat}
    (h : utf8DecodeChar? l = some (c, rest)) : utf8EncodeChar c ++ rest = l := by
  cases l with
  | nil => simp [utf8DecodeChar?] at h
  | cons b bs =>
    simp only [utf8DecodeChar?] at h
    by_cases h1 : b < 128
    · rw [if_pos h1] at h
      obtain ⟨hc, hrest⟩ : b = c ∧ bs = rest := by simpa using h
      subst hc
      subst hrest
      simp [utf8EncodeChar, h1]
    · rw [if_neg h1] at h
      by_cases h2 : b < 194
      · rw [if_pos h2] at h
        exact absurd h (by simp)
      · rw [if_neg h2] at h
        by_cases h3 : b < 224
        · rw [if_pos h3] at h
          exact utf8Two_encode (by omega) h3 h
        · rw [if_neg h3] at h
          by_cases h4 : b < 240
          · rw [if_pos h4] at h
            exact utf8Three_encode (by omega) h4 h
          · rw [if_neg h4] at h
            by_cases h5 : b < 245
            · rw [if_pos h5] at h
              exact utf8Four_encode (by omega) h5 h
            · rw [if_neg h5] at h
              exact absurd h (by simp)

theorem utf8DecodeChar?_consumes {l : List Nat} {c : Nat} {rest : List Nat}
    (h : utf8DecodeChar? l = some (c, rest)) : rest.length < l.length := by
  have henc := utf8DecodeChar?_encode h
  have hne := utf8EncodeChar_ne_nil c
  have hlen := congrArg List.length henc
  simp only [List.length_append] at hlen
  cases hj : utf8EncodeChar c with
  | nil => exact absurd hj hne
  | cons x xs =>
    rw [hj] at hlen
    simp only [List.length_cons] at hlen
    omega

theorem utf8DecodeAux_encode (fuel : Nat) :
    ∀ (l : List Nat) (cps : List Nat), l.length + 1 ≤ fuel →
      utf8DecodeAux fuel l = some cps → utf8EncodeList cps = l := by
  induction fuel with
  | zero => intro l cps hfuel _; omega
  | succ fuel ih =>
    intro l cps hfuel h
    cases l with
    | nil =>
      simp only [utf8DecodeAux, Option.some_inj] at h
      subst h
      rfl
    | cons b bs =>
      simp only [utf8DecodeAux] at h
      cases hchar : utf8DecodeChar? (b :: bs) with
      | none =>
        simp only [hchar] at h
        exact absurd h (by simp)
      | some p =>
        obtain ⟨c, rest⟩ := p
        simp only [hchar] at h
        cases haux : utf8DecodeAux fuel rest with
        | none =>
          simp only [haux, Option.map_none'] at h
          exact absurd h (by simp)
        | some cps0 =>
          simp only [haux, Option.map_some', Option.some_inj] at h
          subst h
          have hcons := utf8DecodeChar?_consumes hchar
          have henc := utf8DecodeChar?_encode hchar
          have hlen : rest.length + 1 ≤ fuel := by
            simp only [List.length_cons] at hcons hfuel
            omega
          calc utf8EncodeList (c :: cps0)
              = utf8EncodeChar c ++ utf8EncodeList cps0 := by
                simp [utf8EncodeList]
            _ = utf8EncodeChar c ++ rest := by rw [ih rest cps0 hlen haux]
            _ = b :: bs := henc

theorem utf8Decode_encode {l : List Nat} {cps : List Nat}
    (h : utf8Decode l = some cps) : utf8EncodeList cps = l :=
  utf8DecodeAux_encode (l.length + 1) l cps (le_refl _) h

/-- Strict UTF-8 decoding to code points; `none` models Python's
`UnicodeDecodeError` (restated entry point lemma target). -/
theorem utf8Decode_eq_some {l : List Nat} {cps : List Nat}
    (h : utf8Decode l = some cps) : utf8EncodeList cps = l := utf8Decode_encode h

theorem splitFirst_not_mem {sep : Nat} {a : List Nat} (h : sep ∉ a) :
    splitFirst sep a = none := by
  induction a with
  | nil => rfl
  | cons b bs ih =>
    have hb : (b == sep) = false := by
      simp only [beq_eq_false_iff_ne]
      intro hb
      exact h (by simp [hb])
    have hbs : sep ∉ bs := fun hx => h (List.mem_cons_of_mem b hx)
    simp [splitFirst, hb, ih hbs]

theorem splitFirst_append {sep : Nat} {a : List Nat} (b : List Nat) (h : sep ∉ a) :
    splitFirst sep (a ++ sep :: b) = some (a, b) := by
  induction a with
  | nil => simp [splitFirst]
  | cons x xs ih =>
    have hx : (x == sep) = false := by
      simp only [beq_eq_false_iff_ne]
      intro hx
      exact h (by simp [hx])
    have hxs : sep ∉ xs := fun hmem => h (List.mem_cons_of_mem x hmem)
    rw [List.cons_append]
    simp [splitFirst, hx, ih hxs]

theorem isPrefixOf_append (l t : List Nat) : l.isPrefixOf (l ++ t) = true := by
  induction l with
  | nil => simp [List.isPrefixOf]
  | cons x xs ih => simp [List.isPrefixOf, ih]

/-! ### Claim theorems -/

/-- C5: every upload (file server and chat server) stores the object under
the basename of the declared name, inside the transfer directory: the
stored key has all path components stripped, contains no `/`, the storage
gains no key other than that basename, and the declared name
`../../etc/evil` is stored literally as `evil`. -/
theorem C5_name_sanitization :
    (∀ (st : Storage) (filename : List Nat) (size : Int) (s1 : ByteStream),
      (fsUpload st filename size s1).storage
        = Storage.save st (basename filename) (recv_all s1 size).1) ∧
    (∀ (st : Storage) (filename initial : List Nat) (size : Int) (s : ByteStream),
      (receive_file_with_initial st filename size initial s).1
        = Storage.save st (basename filename)
            (initial ++ (recv_all s (size - initial.length)).1)) ∧
    (∀ name : List Nat, (47 : Nat) ∉ basename name) ∧
    (∀ (st : Storage) (filename : List Nat) (size : Int) (s1 : ByteStream),
      Storage.names (fsUpload st filename size s1).storage ⊆
        Storage.names st ++ [basename filename]) ∧
    basename (strBytes "../../etc/evil") = strBytes "evil" := by
  refine ⟨fun _ _ _ _ => rfl, fun _ _ _ _ _ => rfl, basename_no_slash, ?_, by decide⟩
  intro st filename size s1
  show Storage.names (Storage.save st (basename filename) _) ⊆ _
  rw [Storage.names_save]
  split
  · exact List.subset_append_left _ _
  · exact List.Subset.refl _

/-- C6: for a download request naming `x`, the reply is `NOTFOUND` exactly
when no object is stored under `basename x`; otherwise it is
`FOUND|<byteCount>` (the stored object's exact length) immediately followed
by the stored bytes.  The dispatcher routes a `DOWNLOAD|x` line to this
branch, and the session stays open. -/
theorem C6_download_reply (st : Storage) (x : List Nat) (s1 : ByteStream) :
    fsHandleLine st (downloadMarker ++ x) s1 = fsDownload st x s1 ∧
    ((fsDownload st x s1).sent = strBytes "NOTFOUND\n" ↔
      Storage.lookup? st (basename x) = none) ∧
    (∀ content, Storage.lookup? st (basename x) = some content →
      (fsDownload st x s1).sent
        = strBytes "FOUND|" ++ natDigits content.length ++ [10] ++ content) ∧
    (fsDownload st x s1).cont = some s1 := by
  have hdl : downloadMarker = strBytes "DOWNLOAD" ++ [124] := by decide
  have hnotup : uploadMarker.isPrefixOf (downloadMarker ++ x) = false := by
    rw [show uploadMarker = 85 :: strBytes "PLOAD|" from by decide,
        show downloadMarker = 68 :: strBytes "OWNLOAD|" from by decide,
        List.cons_append]
    simp [List.isPrefixOf]
  have hisdl : downloadMarker.isPrefixOf (downloadMarker ++ x) = true :=
    isPrefixOf_append _ _
  have h124 : (124 : Nat) ∉ strBytes "DOWNLOAD" := by decide
  have hsplit : splitMax 124 1 (downloadMarker ++ x) = [strBytes "DOWNLOAD", x] := by
    rw [hdl, List.append_assoc, List.singleton_append]
    simp [splitMax, splitFirst_append x h124]
  refine ⟨?_, ?_, ?_, ?_⟩
  · simp only [fsHandleLine, hnotup, Bool.false_eq_true, if_false, hisdl, if_true, hsplit]
  · cases hl : Storage.lookup? st (basename x) with
    | none => simp [fsDownload, hl]
    | some content =>
      simp only [fsDownload, hl]
      constructor
      · intro hsent
        have h0 := congrArg (fun l => l.head?) hsent
        rw [show strBytes "FOUND|" = 70 :: strBytes "OUND|" from by decide,
            show strBytes "NOTFOUND\n" = 78 :: strBytes "OTFOUND\n" from by decide] at h0
        simp at h0
      · intro hc
        exact absurd hc (by simp)
  · intro content hc
    simp [fsDownload, hc]
  · cases hl : Storage.lookup? st (basename x) with
    | none => simp [fsDownload, hl]
    | some content => simp [fsDownload, hl]

/-- Witness for C6 at a concrete storage: a stored `a.txt` is found with
its exact length and bytes, and a missing `b.txt` yields `NOTFOUND`. -/
theorem C6_download_reply_witness :
    (fsDownload [(strBytes "a.txt", strBytes "HELLO")] (strBytes "a.txt") []).sent
      = strBytes "FOUND|" ++ natDigits (strBytes "HELLO").length ++ [10] ++ strBytes "HELLO" ∧
    (fsDownload [(strBytes "a.txt", strBytes "HELLO")] (strBytes "b.txt") []).sent
      = strBytes "NOTFOUND\n" :=
  ⟨(C6_download_reply [(strBytes "a.txt", strBytes "HELLO")] (strBytes "a.txt") []).2.2.1
      (strBytes "HELLO") (by decide),
   ((C6_download_reply [(strBytes "a.txt", strBytes "HELLO")] (strBytes "b.txt") []).2.1).mpr
      (by decide)⟩

/-- C3 (round trip): after an upload of `n` fully-supplied body bytes under
name `x`, a download request for `x` replies `FOUND|<n>` followed by
exactly the uploaded payload bytes. -/
theorem C3_roundtrip (st : Storage) (x : List Nat) (s : ByteStream) (n : Nat)
    (s2 : ByteStream) (hwf : WFStream s) (hn : n ≤ streamLen s) :
    (fsDownload (fsUpload st x (n : Int) s).storage x s2).sent
      = strBytes "FOUND|" ++ natDigits n ++ [10] ++ (streamBytes s).take n := by
  obtain ⟨h1, _, _⟩ := recv_all_spec s (n : Int) hwf
  have htn : ((n : Int)).toNat = n := by omega
  rw [htn] at h1
  have hst : (fsUpload st x (n : Int) s).storage
      = Storage.save st (basename x) ((streamBytes s).take n) := by
    show Storage.save st (basename x) (recv_all s (n : Int)).1 = _
    rw [h1]
  have hlook := Storage.lookup_save_self st (basename x) ((streamBytes s).take n)
  have hlen : ((streamBytes s).take n).length = n := by
    rw [List.length_take]
    rw [streamLen_eq_length] at hn
    omega
  simp [fsDownload, hst, hlook, hlen]

/-- Witness for C3: uploading `HELLO` (5 bytes) as `a.txt` then downloading
`a.txt` yields `FOUND|5` followed by `HELLO`. -/
theorem C3_roundtrip_witness :
    (fsDownload (fsUpload [] (strBytes "a.txt") ((5 : Nat) : Int) [strBytes "HELLO"]).storage
        (strBytes "a.txt") []).sent
      = strBytes "FOUND|" ++ natDigits 5 ++ [10] ++ (streamBytes [strBytes "HELLO"]).take 5 :=
  C3_roundtrip [] (strBytes "a.txt") [strBytes "HELLO"] 5 []
    (by unfold WFStream; decide) (by decide)

/-- C1 (amended): for a valid upload header with byte count `n`, the stored
object is the first `n` pending bytes — length exactly `n` when the stream
supplies at least `n` bytes, and length `streamLen s < n` (everything that
arrived) when the stream closes early.  The short result is returned
(truncation is observable only as the short length); no explicit failure is
signaled: the handler replies with the same `OK|<name>` acknowledgment and
keeps the session open in both cases. -/
theorem C1_upload_truncation (st : Storage) (name : List Nat) (n : Nat) (s : ByteStream)
    (hwf : WFStream s) :
    Storage.lookup? (fsUpload st name (n : Int) s).storage (basename name)
        = some ((streamBytes s).take n) ∧
    (n ≤ streamLen s → ((streamBytes s).take n).length = n) ∧
    (streamLen s < n →
      ((streamBytes s).take n).length = streamLen s ∧
      ((streamBytes s).take n).length < n) ∧
    (fsUpload st name (n : Int) s).sent = strBytes "OK|" ++ basename name ++ [10] ∧
    (fsUpload st name (n : Int) s).cont.isSome = true := by
  obtain ⟨h1, _, _⟩ := recv_all_spec s (n : Int) hwf
  have htn : ((n : Int)).toNat = n := by omega
  rw [htn] at h1
  have hst : (fsUpload st name (n : Int) s).storage
      = Storage.save st (basename name) ((streamBytes s).take n) := by
    show Storage.save st (basename name) (recv_all s (n : Int)).1 = _
    rw [h1]
  refine ⟨?_, ?_, ?_, rfl, rfl⟩
  · rw [hst]
    exact Storage.lookup_save_self _ _ _
  · intro hn
    rw [List.length_take]
    rw [streamLen_eq_length] at hn
    omega
  · intro hn
    rw [streamLen_eq_length] at hn
    constructor
    · rw [List.length_take, streamLen_eq_length]
      omega
    · rw [List.length_take]
      omega

/-- Witness for C1 (amended), exercising both the complete and the
truncated branch on concrete streams. -/
theorem C1_upload_truncation_witness :
    ((streamBytes [strBytes "HELLO"]).take 5).length = 5 ∧
    ((streamBytes [strBytes "HE"]).take 5).length = 2 ∧
    (fsUpload [] (strBytes "a.txt") ((5 : Nat) : Int) [strBytes "HE"]).sent
      = strBytes "OK|" ++ basename (strBytes "a.txt") ++ [10] :=
  ⟨(C1_upload_truncation [] (strBytes "a.txt") 5 [strBytes "HELLO"]
        (by unfold WFStream; decide)).2.1 (by decide),
   ((C1_upload_truncation [] (strBytes "a.txt") 5 [strBytes "HE"]
        (by unfold WFStream; decide)).2.2.1 (by decide)).1,
   (C1_upload_truncation [] (strBytes "a.txt") 5 [strBytes "HE"]
        (by unfold WFStream; decide)).2.2.2.1⟩

/-- C1 counterexample (refuting "truncation is signaled to the caller /
the short transfer is not silently accepted as complete"): a session that
declares 5 body bytes but closes after `HE` produces exactly the same
`OK|a.txt` acknowledgment as a complete 5-byte upload, stores the 2-byte
object, and the handler keeps going — nothing distinguishes the truncated
transfer at the protocol level. -/
theorem C1_counterexample :
    (fsStep [] [strBytes "UPLOAD|a.txt|5\nHE"]).sent
        = (fsStep [] [strBytes "UPLOAD|a.txt|5\nHELLO"]).sent ∧
    (fsStep [] [strBytes "UPLOAD|a.txt|5\nHE"]).sent = strBytes "OK|a.txt\n" ∧
    Storage.lookup? (fsStep [] [strBytes "UPLOAD|a.txt|5\nHE"]).storage (strBytes "a.txt")
        = some (strBytes "HE") ∧
    (fsStep [] [strBytes "UPLOAD|a.txt|5\nHE"]).cont = some [] := by decide

/-- C2: when the read that detected a `FILE|<name>|<size>` header carries
`k` spill-over bytes past the newline, those bytes become the first `k`
bytes of the stored body and only `size - k` further bytes are consumed
from the socket: the stored object is `spill ++ take (n - k) pending` and
the stream afterwards is the pending bytes with exactly `n - k` dropped —
the spill bytes are neither discarded nor re-read. -/
theorem C2_spill_bytes (reg : Registry) (me : Nat) (st : Storage)
    (name sizeStr spill : List Nat) (s1 : ByteStream) (n : Nat)
    (hwf : WFStream s1)
    (hname124 : (124 : Nat) ∉ name) (hname10 : (10 : Nat) ∉ name)
    (hsize10 : (10 : Nat) ∉ sizeStr)
    (hvalid : utf8Valid (fileMarker ++ name ++ 124 :: sizeStr) = true)
    (hparse : pyParseInt sizeStr = some ((n : Nat) : Int)) :
    (chatHandleData reg me st ((fileMarker ++ name ++ 124 :: sizeStr) ++ 10 :: spill)
        s1).storage
      = Storage.save st (basename name)
          (spill ++ (streamBytes s1).take (n - spill.length)) ∧
    streamBytes (receive_file_with_initial st name ((n : Nat) : Int) spill s1).2
      = (streamBytes s1).drop (n - spill.length) := by
  have hfm : fileMarker = strBytes "FILE" ++ [124] := by decide
  have hfm10 : (10 : Nat) ∉ fileMarker := by decide
  have hFILE124 : (124 : Nat) ∉ strBytes "FILE" := by decide
  have hpre : fileMarker.isPrefixOf
      ((fileMarker ++ name ++ 124 :: sizeStr) ++ 10 :: spill) = true := by
    rw [List.append_assoc, List.append_assoc]
    exact isPrefixOf_append _ _
  have h10hdr : (10 : Nat) ∉ fileMarker ++ name ++ 124 :: sizeStr := by
    intro hmem
    rcases List.mem_append.mp hmem with hmem | hmem
    · rcases List.mem_append.mp hmem with hmem | hmem
      · exact hfm10 hmem
      · exact hname10 hmem
    · rcases List.mem_cons.mp hmem with hmem | hmem
      · omega
      · exact hsize10 hmem
  have hcr : chatHeaderRest ((fileMarker ++ name ++ 124 :: sizeStr) ++ 10 :: spill)
      = (fileMarker ++ name ++ 124 :: sizeStr, spill) := by
    unfold chatHeaderRest
    rw [splitFirst_append spill h10hdr]
  have hsm : splitMax 124 2 (fileMarker ++ name ++ 124 :: sizeStr)
      = [strBytes "FILE", name, sizeStr] := by
    have hshape : fileMarker ++ name ++ 124 :: sizeStr
        = strBytes "FILE" ++ 124 :: (name ++ 124 :: sizeStr) := by
      rw [hfm]
      simp
    rw [hshape]
    simp [splitMax, splitFirst_append _ hFILE124, splitFirst_append _ hname124]
  obtain ⟨hr1, hr2, _⟩ := recv_all_spec s1 (((n : Nat) : Int) - spill.length) hwf
  have htn : (((n : Nat) : Int) - spill.length).toNat = n - spill.length := by omega
  rw [htn] at hr1 hr2
  have hrfwi : receive_file_with_initial st name ((n : Nat) : Int) spill s1
      = (Storage.save st (basename name)
          (spill ++ (streamBytes s1).take (n - spill.length)),
        (recv_all s1 (((n : Nat) : Int) - spill.length)).2) := by
    simp only [receive_file_with_initial]
    rw [hr1]
  constructor
  · simp only [chatHandleData, hpre, if_true, hcr, hvalid, hsm, hparse]
    cases hsn : senderName reg me with
    | none => simp only [hrfwi]
    | some sender => simp only [hrfwi]
  · rw [hrfwi] at *
    exact hr2

/-- Witness for C2: header `FILE|a|5` arrives bundled with spill `HE`;
the stored object is `HE` ++ the next three pending bytes `LLO`, and the
trailing `X` is left unconsumed on the stream. -/
theorem C2_spill_bytes_witness :
    (chatHandleData ⟨[1], ["bob"]⟩ 1 []
        ((fileMarker ++ strBytes "a" ++ 124 :: strBytes "5") ++ 10 :: strBytes "HE")
        [strBytes "LLOX"]).storage
      = Storage.save [] (basename (strBytes "a"))
          (strBytes "HE" ++ (streamBytes [strBytes "LLOX"]).take (5 - (strBytes "HE").length)) ∧
    streamBytes (receive_file_with_initial [] (strBytes "a") ((5 : Nat) : Int)
        (strBytes "HE") [strBytes "LLOX"]).2
      = (streamBytes [strBytes "LLOX"]).drop (5 - (strBytes "HE").length) :=
  C2_spill_bytes ⟨[1], ["bob"]⟩ 1 [] (strBytes "a") (strBytes "5") (strBytes "HE")
    [strBytes "LLOX"] 5 (by unfold WFStream; decide) (by decide) (by decide) (by decide)
    (by decide) (by decide)

/-- C4 (amended): the two servers differ.  Chat server: a malformed `FILE`
header — wrong field count, or an unparsable size — gets a single inline
`ERROR|...` frame on the offending connection and the handler loop
continues with the same connection.  File server: only an unrecognized
command line gets the inline `ERROR|Unknown command` with the loop
continuing; a malformed `UPLOAD` header (wrong field count or unparsable
size) raises `ValueError` out of the dispatch, which terminates the
session with no reply at all. -/
theorem C4_malformed_header :
    (∀ (reg : Registry) (me : Nat) (st : Storage) (data : List Nat) (s1 : ByteStream),
      fileMarker.isPrefixOf data = true →
      utf8Valid (chatHeaderRest data).1 = true →
      (splitMax 124 2 (chatHeaderRest data).1).length ≠ 3 →
      chatHandleData reg me st data s1
        = { storage := st, sentToClient := [errHeader], broadcasts := [],
            cont := some s1 }) ∧
    (∀ (reg : Registry) (me : Nat) (st : Storage) (data : List Nat) (s1 : ByteStream)
        (a f z : List Nat),
      fileMarker.isPrefixOf data = true →
      utf8Valid (chatHeaderRest data).1 = true →
      splitMax 124 2 (chatHeaderRest data).1 = [a, f, z] →
      pyParseInt z = none →
      chatHandleData reg me st data s1
        = { storage := st, sentToClient := [errSize], broadcasts := [],
            cont := some s1 }) ∧
    (∀ (st : Storage) (line : List Nat) (s1 : ByteStream),
      uploadMarker.isPrefixOf line = true →
      ((splitMax 124 2 line).length ≠ 3 ∨
        ∃ a f z, splitMax 124 2 line = [a, f, z] ∧ pyParseInt z = none) →
      fsHandleLine st line s1 = { storage := st, sent := [], cont := none }) ∧
    (∀ (st : Storage) (line : List Nat) (s1 : ByteStream),
      uploadMarker.isPrefixOf line = false →
      downloadMarker.isPrefixOf line = false →
      line ≠ strBytes "LIST" →
      fsHandleLine st line s1
        = { storage := st, sent := errUnknown, cont := some s1 }) := by
  refine ⟨?_, ?_, ?_, ?_⟩
  · intro reg me st data s1 hfile hvalid hlen
    rcases hsp : splitMax 124 2 (chatHeaderRest data).1 with _ | ⟨a, _ | ⟨f, _ | ⟨z, _ | ⟨w, tl⟩⟩⟩⟩
    · simp [chatHandleData, hfile, hvalid, hsp]
    · simp [chatHandleData, hfile, hvalid, hsp]
    · simp [chatHandleData, hfile, hvalid, hsp]
    · rw [hsp] at hlen
      simp at hlen
    · simp [chatHandleData, hfile, hvalid, hsp]
  · intro reg me st data s1 a f z hfile hvalid hsp hparse
    simp [chatHandleData, hfile, hvalid, hsp, hparse]
  · intro st line s1 hup hbad
    rcases hbad with hlen | ⟨a, f, z, hsp, hparse⟩
    · rcases hsp : splitMax 124 2 line with _ | ⟨a, _ | ⟨f, _ | ⟨z, _ | ⟨w, tl⟩⟩⟩⟩
      · simp [fsHandleLine, hup, hsp]
      · simp [fsHandleLine, hup, hsp]
      · simp [fsHandleLine, hup, hsp]
      · rw [hsp] at hlen
        simp at hlen
      · simp [fsHandleLine, hup, hsp]
    · simp [fsHandleLine, hup, hsp, hparse]
  · intro st line s1 hup hdl hlist
    simp [fsHandleLine, hup, hdl, hlist]

/-- Witness for C4 (amended) at concrete malformed headers: `FILE|a.txt`
(missing size field) and `FILE|a.txt|zz` (unparsable size) draw inline
errors from the chat server with the session continuing, while
`UPLOAD|a.txt|xyz` kills the file-server session silently and `HELLO`
draws the file server's inline unknown-command error. -/
theorem C4_malformed_header_witness :
    chatHandleData ⟨[1], ["bob"]⟩ 1 [] (strBytes "FILE|a.txt") []
      = { storage := [], sentToClient := [errHeader], broadcasts := [], cont := some [] } ∧
    chatHandleData ⟨[1], ["bob"]⟩ 1 [] (strBytes "FILE|a.txt|zz") []
      = { storage := [], sentToClient := [errSize], broadcasts := [], cont := some [] } ∧
    fsHandleLine [] (strBytes "UPLOAD|a.txt|xyz") []
      = { storage := [], sent := [], cont := none } ∧
    fsHandleLine [] (strBytes "HELLO") []
      = { storage := [], sent := errUnknown, cont := some [] } :=
  ⟨C4_malformed_header.1 ⟨[1], ["bob"]⟩ 1 [] (strBytes "FILE|a.txt") []
      (by decide) (by decide) (by decide),
   C4_malformed_header.2.1 ⟨[1], ["bob"]⟩ 1 [] (strBytes "FILE|a.txt|zz") []
      (strBytes "FILE") (strBytes "a.txt") (strBytes "zz")
      (by decide) (by decide) (by decide) (by decide),
   C4_malformed_header.2.2.1 [] (strBytes "UPLOAD|a.txt|xyz") [] (by decide)
      (Or.inr ⟨strBytes "UPLOAD", strBytes "a.txt", strBytes "xyz", by decide, by decide⟩),
   C4_malformed_header.2.2.2 [] (strBytes "HELLO") [] (by decide) (by decide) (by decide)⟩

/-- C4 counterexample (refuting "every malformed transfer header gets an
inline ERROR and the connection remains open"): on the file server, the
malformed headers `UPLOAD|a.txt|xyz` (unparsable size) and `UPLOAD|a.txt`
(missing field) terminate the session with no reply — the `ValueError`
escapes to the handler's outer `except`, which closes the connection. -/
theorem C4_counterexample :
    (fsStep [] [strBytes "UPLOAD|a.txt|xyz\n"]).sent = [] ∧
    (fsStep [] [strBytes "UPLOAD|a.txt|xyz\n"]).cont = none ∧
    (fsStep [] [strBytes "UPLOAD|a.txt\n"]).sent = [] ∧
    (fsStep [] [strBytes "UPLOAD|a.txt\n"]).cont = none := by decide

/-- `broadcast` always returns normally: it attempts one send per
non-excluded registered client, in registry order, flagging each attempt
with its success, and a failed send never aborts the remainder. -/
theorem broadcastE_eq (clients : List Nat) (exclude : Option Nat)
    (send : Nat → Except Unit Unit) :
    broadcastE clients exclude send
      = .ok ((clients.filter (fun c => some c ≠ exclude)).map
          (fun c => (c, match send c with | .ok _ => true | .error _ => false))) := by
  induction clients with
  | nil => rfl
  | cons c rest ih =>
    by_cases hx : some c = exclude
    · simp [broadcastE, hx, ih]
    · cases hs : send c with
      | ok u => simp [broadcastE, hx, hs, ih]
      | error e => simp [broadcastE, hx, hs, ih]

/-- C7: even when some registered session's transport write fails,
`broadcast` still attempts delivery to every other non-excluded registered
session (each appears in the attempt list, failures merely flagged) and
returns normally — no exception escapes to the caller. -/
theorem C7_broadcast_failure (clients : List Nat) (exclude : Option Nat)
    (send : Nat → Except Unit Unit)
    (_hfail : ∃ c ∈ clients, send c = .error ()) :
    broadcastE clients exclude send
      = .ok ((clients.filter (fun c => some c ≠ exclude)).map
          (fun c => (c, match send c with | .ok _ => true | .error _ => false))) :=
  broadcastE_eq clients exclude send

/-- Witness for C7: client 2's send fails, yet 1 and 3 are still attempted
and delivered, and `broadcast` returns normally. -/
theorem C7_broadcast_failure_witness :
    broadcastE [1, 2, 3] none (fun c => if c == 2 then .error () else .ok ())
      = .ok [(1, true), (2, false), (3, true)] := by
  have h := C7_broadcast_failure [1, 2, 3] none
      (fun c => if c == 2 then .error () else .ok ()) ⟨2, by decide, rfl⟩
  rw [h]
  rfl

/-- C8: `remove_client` on an identifier not in the registry is a no-op —
lists unchanged, no "left" broadcast — so running the cleanup twice for
the same session (whose id occurs at most once) has exactly the effect of
running it once: the second run removes nothing and broadcasts nothing. -/
theorem C8_unregister_idempotent (reg : Registry) (me : Nat) :
    (me ∉ reg.clients → remove_client reg me = .ok (reg, [])) ∧
    (∀ (reg2 : Registry) (msgs : List String),
      reg.clients.count me ≤ 1 →
      remove_client reg me = .ok (reg2, msgs) →
      remove_client reg2 me = .ok (reg2, [])) := by
  constructor
  · intro hmem
    simp [remove_client, hmem]
  · intro reg2 msgs hcount hrem
    by_cases hmem : me ∈ reg.clients
    · simp only [remove_client, hmem, if_true] at hrem
      cases hget : reg.nicknames.get? (reg.clients.indexOf me) with
      | none =>
        rw [hget] at hrem
        exact absurd hrem (by simp)
      | some nickname =>
        rw [hget] at hrem
        obtain ⟨hr2, _⟩ : Registry.mk (reg.clients.erase me)
              (reg.nicknames.eraseIdx (reg.clients.indexOf me))
              = reg2 ∧ [leftMsg nickname] = msgs := by simpa using hrem
        subst hr2
        have hnot : me ∉ reg.clients.erase me := by
          intro hx
          have hpos : 0 < (reg.clients.erase me).count me := List.count_pos_iff.mpr hx
          have hce := List.count_erase_self me reg.clients
          omega
        simp [remove_client, hnot]
    · simp only [remove_client, hmem, if_false] at hrem
      obtain ⟨hr2, _⟩ : reg = reg2 ∧ ([] : List String) = msgs := by simpa using hrem
      subst hr2
      simp [remove_client, hmem]

/-- Witness for C8: removing an absent id 3 leaves the registry untouched
with no broadcast, and running the cleanup for id 7 a second time is a
no-op. -/
theorem C8_unregister_idempotent_witness :
    remove_client ⟨[7], ["ann"]⟩ 3 = .ok (⟨[7], ["ann"]⟩, []) ∧
    remove_client ⟨[], []⟩ 7 = .ok (⟨[], []⟩, []) :=
  ⟨(C8_unregister_idempotent ⟨[7], ["ann"]⟩ 3).1 (by decide),
   (C8_unregister_idempotent ⟨[7], ["ann"]⟩ 7).2 ⟨[], []⟩ [leftMsg "ann"]
      (by decide) rfl⟩

/-- C9 (amended): for a non-empty transfer directory whose stored names
contain no newline, the LIST reply is each stored name on its own line
followed by the sentinel `DONE` line — splitting the reply on newlines
yields exactly the stored names, then `DONE`, then the empty trailer.
(For an empty directory the `"\n".join` construction instead emits a
spurious empty name line before `DONE`; see the counterexample.) -/
theorem C9_listing (st : Storage) (s1 : ByteStream) (hne : st ≠ [])
    (hfree : ∀ nm ∈ Storage.names st, (10 : Nat) ∉ nm) :
    (fsList st s1).sent = pyJoin [10] (Storage.names st) ++ strBytes "\nDONE\n" ∧
    splitAll 10 (fsList st s1).sent = Storage.names st ++ [strBytes "DONE", []] ∧
    (fsList st s1).cont = some s1 := by
  refine ⟨rfl, ?_, rfl⟩
  have hnames : Storage.names st ≠ [] := by
    cases st with
    | nil => exact absurd rfl hne
    | cons p r => simp [Storage.names]
  have hshape : (fsList st s1).sent
      = pyJoin [10] (Storage.names st) ++ 10 :: strBytes "DONE\n" := by
    show pyJoin [10] (Storage.names st) ++ strBytes "\nDONE\n" = _
    congr 1
  rw [hshape, splitAll_pyJoin (Storage.names st) (strBytes "DONE\n") hnames hfree]
  congr 1

/-- Witness for C9 on a directory holding `a.txt`. -/
theorem C9_listing_witness :
    splitAll 10 (fsList [(strBytes "a.txt", strBytes "HELLO")] []).sent
      = Storage.names [(strBytes "a.txt", strBytes "HELLO")] ++ [strBytes "DONE", []] :=
  (C9_listing [(strBytes "a.txt", strBytes "HELLO")] [] (by decide) (by decide)).2.1

/-- C9 counterexample (refuting the claim at the empty directory): with no
stored objects the reply is `"\nDONE\n"`, not the bare sentinel `"DONE\n"`
— its line decomposition contains a spurious empty name line, so the set
of names in the reply is not the (empty) set of stored names. -/
theorem C9_counterexample :
    (fsList [] []).sent ≠ strBytes "DONE\n" ∧
    (fsList [] []).sent = strBytes "\nDONE\n" ∧
    splitAll 10 (fsList [] []).sent = [[], strBytes "DONE", []] := by decide

/-- C10: a received chunk that does not start with `FILE|` is broadcast to
all clients, the sender included, without the session failing: a valid
UTF-8 chunk is broadcast byte-for-byte verbatim (decode then re-encode is
the identity), an invalid one is replaced by the literal
`<Invalid UTF-8 data>` placeholder, and the fan-out attempts every
registered client. -/
theorem C10_chat_text (reg : Registry) (me : Nat) (st : Storage) (data : List Nat)
    (s1 : ByteStream) (send : Nat → Except Unit Unit)
    (hnf : fileMarker.isPrefixOf data = false) :
    (∀ cps, utf8Decode data = some cps →
      chatHandleData reg me st data s1
        = { storage := st, sentToClient := [], broadcasts := [data], cont := some s1 }) ∧
    (utf8Decode data = none →
      chatHandleData reg me st data s1
        = { storage := st, sentToClient := [], broadcasts := [invalidUtf8Msg],
            cont := some s1 }) ∧
    broadcastE reg.clients none send
      = .ok (reg.clients.map
          (fun c => (c, match send c with | .ok _ => true | .error _ => false))) ∧
    (me ∈ reg.clients →
      (me, match send me with | .ok _ => true | .error _ => false)
        ∈ reg.clients.map
            (fun c => (c, match send c with | .ok _ => true | .error _ => false))) := by
  refine ⟨?_, ?_, ?_, ?_⟩
  · intro cps hdec
    have henc := utf8Decode_encode hdec
    simp [chatHandleData, hnf, hdec, henc]
  · intro hdec
    simp [chatHandleData, hnf, hdec]
  · rw [broadcastE_eq]
    have hfilter : reg.clients.filter (fun c => some c ≠ (none : Option Nat))
        = reg.clients := by
      have hp : (fun c => decide (some c ≠ (none : Option Nat))) = fun _ : Nat => true := by
        funext c
        simp
      rw [hp, List.filter_true]
    rw [hfilter]
  · intro hmem
    exact List.mem_map_of_mem _ hmem

/-- Witness for C10: `hi` is broadcast verbatim, the invalid byte string
`[255, 65]` is replaced by the placeholder, and the fan-out with no
exclusion reaches both registered clients. -/
theorem C10_chat_text_witness :
    chatHandleData ⟨[1, 2], ["a", "b"]⟩ 1 [] (strBytes "hi") [[33]]
      = { storage := [], sentToClient := [], broadcasts := [strBytes "hi"],
          cont := some [[33]] } ∧
    chatHandleData ⟨[1, 2], ["a", "b"]⟩ 1 [] [255, 65] []
      = { storage := [], sentToClient := [], broadcasts := [invalidUtf8Msg],
          cont := some [] } ∧
    broadcastE [1, 2] none (fun _ => .ok ()) = .ok [(1, true), (2, true)] := by
  refine ⟨(C10_chat_text ⟨[1, 2], ["a", "b"]⟩ 1 [] (strBytes "hi") [[33]]
      (fun _ => .ok ()) (by decide)).1 [104, 105] (by decide),
    (C10_chat_text ⟨[1, 2], ["a", "b"]⟩ 1 [] [255, 65] []
      (fun _ => .ok ()) (by decide)).2.1 (by decide), ?_⟩
  have h := (C10_chat_text ⟨[1, 2], ["a", "b"]⟩ 1 [] [255, 65] []
      (fun _ => .ok ()) (by decide)).2.2.1
  rw [h]
  rfl

/-- Witness for C5: the sanitized key for the concrete traversal attempt
`../../etc/evil`, as stored by a concrete upload. -/
theorem C5_name_sanitization_witness :
    (fsUpload [] (strBytes "../../etc/evil") ((4 : Nat) : Int) [strBytes "EVIL"]).storage
      = Storage.save [] (basename (strBytes "../../etc/evil"))
          (recv_all [strBytes "EVIL"] ((4 : Nat) : Int)).1 ∧
    basename (strBytes "../../etc/evil") = strBytes "evil" :=
  ⟨C5_name_sanitization.1 [] (strBytes "../../etc/evil") ((4 : Nat) : Int) [strBytes "EVIL"],
   C5_name_sanitization.2.2.2.2⟩
